import Mathlib

/-!
Verification of the SAI content-addressed image storage module
(`sai-inference-storage-module.py`).

The module is shallowly embedded: Python strings become `List Char`,
POSIX `pathlib` paths become a normalized `(isAbs, components)` pair,
the filesystem becomes an explicit state record (files keyed by path,
plus a set of directories), and the fallible write/rename/cleanup
sequence of `ImageStorage.store` becomes a state-passing function whose
I/O failures are driven by an explicit fault description, mirroring the
`try`/`except` structure of the source.
-/

set_option autoImplicit false

namespace SaiStorage

/-- Python strings are modelled as lists of characters. -/
abbrev PyStr := List Char

/-- Byte payloads (`bytes` in the source) are modelled as lists of naturals. -/
abbrev Bytes := List Nat

instance instDecEqExcept (ε α : Type) [DecidableEq ε] [DecidableEq α] :
    DecidableEq (Except ε α) := fun x y =>
  match x, y with
  | .ok a, .ok b =>
    if h : a = b then .isTrue (by rw [h]) else .isFalse (fun e => h (by injection e))
  | .ok _, .error _ => .isFalse (fun e => Except.noConfusion e)
  | .error _, .ok _ => .isFalse (fun e => Except.noConfusion e)
  | .error a, .error b =>
    if h : a = b then .isTrue (by rw [h]) else .isFalse (fun e => h (by injection e))

/-! ## `pathlib` model (POSIX flavour)

`pathlib.PurePosixPath` parses each string segment by splitting on `/`,
dropping empty and `"."` components, and restarting from the filesystem
root whenever a segment begins with `/`.
-/

/-- Split a character list at every `/` (chunks may be empty, as in
`str.split` on the separator). -/
def splitSlash : PyStr → List PyStr
  | [] => [[]]
  | c :: rest =>
    if c = '/' then [] :: splitSlash rest
    else
      match splitSlash rest with
      | s :: ss => (c :: s) :: ss
      | [] => [[c]]

/-- `pathlib` keeps a parsed chunk as a component iff it is nonempty and
not the no-op component `"."`. -/
def keepSeg (s : PyStr) : Bool := !s.isEmpty && !(s == ['.'])

/-- Components contributed by one string segment, as `pathlib` parses it. -/
def splitSegs (s : PyStr) : List PyStr := (splitSlash s).filter keepSeg

/-- Components contributed by a list of relative segments, in order. -/
def segsOfParts : List PyStr → List PyStr
  | [] => []
  | s :: rest => splitSegs s ++ segsOfParts rest

/-- A parsed POSIX path: absolute-flag plus the list of components. -/
structure PPath where
  isAbs : Bool
  comps : List PyStr
deriving DecidableEq, Repr

/-- `p / s` (`PurePath.joinpath` with one string segment): a segment that
starts with `/` discards everything before it. -/
def joinSeg (p : PPath) (s : PyStr) : PPath :=
  if s.head? = some '/' then ⟨true, splitSegs s⟩
  else ⟨p.isAbs, p.comps ++ splitSegs s⟩

/-- `joinpath(*parts)`: fold the single-segment join over the parts. -/
def joinMany (p : PPath) : List PyStr → PPath
  | [] => p
  | s :: rest => joinMany (joinSeg p s) rest

/-- `Path(s)`: parse one string into a path. -/
def parsePath (s : PyStr) : PPath := joinSeg ⟨false, []⟩ s

/-- Interleave the components with `/` (no leading or trailing separator). -/
def interSlash : List PyStr → PyStr
  | [] => []
  | [s] => s
  | s :: rest => s ++ '/' :: interSlash rest

/-- `str(path)` for the POSIX flavour: `'/'`-prefixed for absolute paths,
`"/"` for the bare root and `"."` for the empty relative path. -/
def renderPath (p : PPath) : PyStr :=
  if p.comps.isEmpty then (if p.isAbs then ['/'] else ['.'])
  else (if p.isAbs then ['/'] else []) ++ interSlash p.comps

/-- `PurePath.name`: the final component, or `""` when there is none. -/
def pathName (p : PPath) : PyStr := (p.comps.getLast?).getD []

/-- Scan a reversed name for its first `'.'`: returns the characters
before the dot and the remainder after it (both still reversed). -/
def splitRevDot : PyStr → Option (PyStr × PyStr)
  | [] => none
  | c :: rest =>
    if c = '.' then some ([], rest)
    else (splitRevDot rest).map (fun pr => (c :: pr.1, pr.2))

/-- `PurePath.suffix` of a name string: the part from the last dot on,
except that a leading or trailing dot yields no suffix. -/
def nameSuffix (n : PyStr) : PyStr :=
  match splitRevDot n.reverse with
  | some (a, b) => if a ≠ [] ∧ b ≠ [] then '.' :: a.reverse else []
  | none => []

/-- `PurePath.with_suffix`: validate the new suffix, then replace the old
suffix of the name (`none` models the `ValueError` raises of `pathlib`). -/
def pathWithSuffix (p : PPath) (suf : PyStr) : Option PPath :=
  if '/' ∈ suf then none
  else if suf ≠ [] ∧ suf.head? ≠ some '.' then none
  else if suf = ['.'] then none
  else
    match p.comps.getLast? with
    | none => none
    | some n =>
      let old := nameSuffix n
      some ⟨p.isAbs, p.comps.dropLast ++ [n.take (n.length - old.length) ++ suf]⟩

/-! ## Python slicing

`hash[start:end]` with arbitrary (possibly negative) integer bounds. -/

/-- Normalize one slice bound against a length, as CPython does. -/
def pyIndex (n : Nat) (i : Int) : Nat :=
  if i < 0 then ((n : Int) + i).toNat else min i.toNat n

/-- `s[a:b]` on a character list. -/
def pySlice (s : PyStr) (a b : Int) : PyStr :=
  (s.take (pyIndex s.length b)).drop (pyIndex s.length a)

/-! ## Filesystem state -/

/-- Filesystem state: regular files with their byte contents, and the set
of directories, both keyed by parsed path. -/
structure FS where
  files : List (PPath × Bytes)
  dirs : List PPath
deriving DecidableEq, Repr

/-- Contents of the regular file at `p`, if any. -/
def lookupFile : List (PPath × Bytes) → PPath → Option Bytes
  | [], _ => none
  | (q, c) :: rest, p => if q = p then some c else lookupFile rest p

/-- Create or truncate-and-overwrite the regular file at `p` (`open(p, 'wb')`
followed by a full write). -/
def setFile : List (PPath × Bytes) → PPath → Bytes → List (PPath × Bytes)
  | [], p, b => [(p, b)]
  | (q, c) :: rest, p, b => if q = p then (p, b) :: rest else (q, c) :: setFile rest p b

/-- Remove the regular file at `p` (`os.remove`). -/
def removeFileL : List (PPath × Bytes) → PPath → List (PPath × Bytes)
  | [], _ => []
  | (q, c) :: rest, p => if q = p then removeFileL rest p else (q, c) :: removeFileL rest p

/-- `Path.exists()`: true for a regular file or a directory at `p`. -/
def pexists (fs : FS) (p : PPath) : Bool :=
  (lookupFile fs.files p).isSome || fs.dirs.any (fun q => decide (q = p))

/-- The directory chain that `os.makedirs` creates for `p`: every nonempty
prefix of its component list. -/
def ancestorsOf (p : PPath) : List PPath :=
  (List.range p.comps.length).map (fun i => ⟨p.isAbs, p.comps.take (i + 1)⟩)

/-- Record a directory if it is not present yet (`exist_ok=True`). -/
def addDir (ds : List PPath) (q : PPath) : List PPath :=
  if q ∈ ds then ds else ds ++ [q]

/-- `aiofiles.os.makedirs(p, exist_ok=True)`. -/
def mkdirsM (fs : FS) (p : PPath) : FS :=
  { fs with dirs := (ancestorsOf p).foldl addDir fs.dirs }

/-- `os.rename(src, dst)`: move the regular file at `src` onto `dst`
(replacing any file there); `none` models the raise when `src` is missing. -/
def renamePath (fs : FS) (src dst : PPath) : Option FS :=
  match lookupFile fs.files src with
  | some c => some { fs with files := setFile (removeFileL fs.files src) dst c }
  | none => none

/-! ## The storage module -/

/-- Construction-time configuration of `ImageStorage` (lines 56-64 of the
source): the base path and the two sharding parameters.  The constructor
only stores them; it performs no validation. -/
structure ImageStorage where
  basePath : PPath
  shardDepth : Int
  shardWidth : Int
deriving DecidableEq, Repr

/-- `ImageStorage.__init__`: parse the base path and record the sharding
parameters, with no validation and no possibility of failure. -/
def ImageStorage.init (base : PyStr) (depth width : Int) : ImageStorage :=
  ⟨parsePath base, depth, width⟩

/-- The source's default base path `"/mnt/raid1/sai-images"`. -/
def defaultBase : PyStr := "/mnt/raid1/sai-images".data

/-- The module-level global instance `image_storage = ImageStorage()`
(line 196): default base path, `shard_depth=2`, `shard_width=2`. -/
def imageStorageDefault : ImageStorage := ImageStorage.init defaultBase 2 2

/-- A well-formed SHA-256 hex digest: 64 characters, all lowercase hex.
`hashlib.sha256(...).hexdigest()` always returns such a string; the hash
function itself is an external library and enters the model as a
parameter constrained by this predicate. -/
def IsHexDigest (s : PyStr) : Prop :=
  s.length = 64 ∧ ∀ c ∈ s, c ∈ "0123456789abcdef".data

instance (s : PyStr) : Decidable (IsHexDigest s) := by
  unfold IsHexDigest; infer_instance

/-- The shard prefix groups of `_get_shard_path` (lines 78-82):
`hash[i*width : i*width + width]` for `i in range(shard_depth)`. -/
def shardParts (cfg : ImageStorage) (digest : PyStr) : List PyStr :=
  (List.range cfg.shardDepth.toNat).map
    (fun i : Nat =>
      pySlice digest (cfg.shardWidth * (i : Int)) (cfg.shardWidth * (i : Int) + cfg.shardWidth))

/-- `ImageStorage._get_shard_path`: `base_path.joinpath(*parts)`. -/
def getShardPath (cfg : ImageStorage) (digest : PyStr) : PPath :=
  joinMany cfg.basePath (shardParts cfg digest)

/-- `ImageStorage._get_file_path`: `shard_dir / f"{hash}{extension}"`. -/
def getFilePath (cfg : ImageStorage) (digest ext : PyStr) : PPath :=
  joinSeg (getShardPath cfg digest) (digest ++ ext)

/-- `ImageStorage.get_path` (locate): `str(self._get_file_path(...))`,
no I/O and no existence check. -/
def getPathM (cfg : ImageStorage) (digest ext : PyStr) : PyStr :=
  renderPath (getFilePath cfg digest ext)

/-- The `StorageResult` dataclass (minus the wall-clock `stored_at`
timestamp, which is outside the model). -/
structure StorageResult where
  hash : PyStr
  path : PyStr
  size : Nat
  is_duplicate : Bool
deriving DecidableEq, Repr

/-- Errors the store operations can raise. -/
inductive Err where
  /-- The temporary-file `open`/`write` raised (disk full, permissions...). -/
  | writeErr
  /-- `os.rename` raised. -/
  | renameErr
  /-- The cleanup `os.remove` of the temporary file raised. -/
  | removeErr
  /-- `ValueError` out of `with_suffix`. -/
  | valueErr
  /-- `FileNotFoundError` from renaming a missing source. -/
  | missingErr
  /-- `IsADirectoryError` from opening or removing a directory. -/
  | dirErr
deriving DecidableEq, Repr

/-- Fault injection for one `store` call: which of the I/O steps inside
the `try` block (and the cleanup in the `except` block) raise, and
whether a failed write leaves a partial temporary file behind. -/
structure Faults where
  writeFails : Bool
  writeLeaves : Bool
  leftover : Bytes
  renameFails : Bool
  removeFails : Bool
deriving DecidableEq, Repr

/-- The fault-free scenario. -/
def noFault : Faults := ⟨false, false, [], false, false⟩

/-- The fixed temporary location `file_path.with_suffix('.tmp')`
(line 124): a pure function of configuration, digest and extension. -/
def tempPathOf (cfg : ImageStorage) (digest ext : PyStr) : Option PPath :=
  pathWithSuffix (getFilePath cfg digest ext) (".tmp".data)

/-- The `except` block of `store` (lines 130-134): if the temporary path
exists, remove it — a raise from that removal propagates instead of the
original error `e`; otherwise re-raise `e`. -/
def cleanupStep (fs : FS) (tmp : PPath) (sc : Faults) (e : Err) :
    FS × Except Err StorageResult :=
  if pexists fs tmp then
    if sc.removeFails then (fs, .error .removeErr)
    else ({ fs with files := removeFileL fs.files tmp }, .error e)
  else (fs, .error e)

/-- `ImageStorage.store` (lines 90-144).  The hash function `h` stands for
`hashlib.sha256(...).hexdigest()`; the `BytesIO` branch is the identity
on the payload bytes and is elided.  Returns the final filesystem state
together with the result or the propagated exception. -/
def storeM (cfg : ImageStorage) (h : Bytes → PyStr) (fs : FS) (b : Bytes)
    (ext : PyStr) (sc : Faults) : FS × Except Err StorageResult :=
  let digest := h b
  let fp := getFilePath cfg digest ext
  if pexists fs fp then
    (fs, .ok ⟨digest, renderPath fp, b.length, true⟩)
  else
    let fs1 := mkdirsM fs (getShardPath cfg digest)
    match pathWithSuffix fp (".tmp".data) with
    | none => (fs1, .error .valueErr)
    | some tmp =>
      if sc.writeFails then
        cleanupStep
          (if sc.writeLeaves then { fs1 with files := setFile fs1.files tmp sc.leftover }
           else fs1) tmp sc .writeErr
      else
        let fs2 := { fs1 with files := setFile fs1.files tmp b }
        if sc.renameFails then cleanupStep fs2 tmp sc .renameErr
        else
          match renamePath fs2 tmp fp with
          | some fs3 => (fs3, .ok ⟨digest, renderPath fp, b.length, false⟩)
          | none => cleanupStep fs2 tmp sc .missingErr

/-- `ImageStorage.fetch` (lines 146-164): derive the location, return
`None` when nothing exists there, otherwise read the file (opening a
directory raises). -/
def fetchM (cfg : ImageStorage) (fs : FS) (digest ext : PyStr) :
    Except Err (Option Bytes) :=
  let fp := getFilePath cfg digest ext
  if pexists fs fp then
    match lookupFile fs.files fp with
    | some c => .ok (some c)
    | none => .error .dirErr
  else .ok none

/-- `ImageStorage.exists` (lines 166-169). -/
def existsM (cfg : ImageStorage) (fs : FS) (digest ext : PyStr) : Bool :=
  pexists fs (getFilePath cfg digest ext)

/-- `ImageStorage.delete` (lines 175-192): `False` without touching
anything when the location does not exist, otherwise remove the file and
return `True`. -/
def deleteM (cfg : ImageStorage) (fs : FS) (digest ext : PyStr) :
    Except Err (FS × Bool) :=
  let fp := getFilePath cfg digest ext
  if pexists fs fp then
    match lookupFile fs.files fp with
    | some _ => .ok ({ fs with files := removeFileL fs.files fp }, true)
    | none => .error .dirErr
  else .ok (fs, false)

/-! ## Concrete values used by witnesses and counterexamples -/

/-- A concrete full-length digest (64 times `'a'`). -/
def digestA : PyStr := List.replicate 64 'a'

/-- A second concrete full-length digest (64 times `'b'`). -/
def digestB : PyStr := List.replicate 64 'b'

/-- A concrete stand-in for the SHA-256 hex-digest function. -/
def hashA : Bytes → PyStr := fun _ => digestA

/-- The default extension `".jpg"`. -/
def jpgExt : PyStr := ".jpg".data

/-- The extension `".tmp"`. -/
def tmpExt : PyStr := ".tmp".data

/-- The empty filesystem. -/
def emptyFS : FS := ⟨[], []⟩

/-- The fault scenario in which `os.rename` raises and the cleanup
`os.remove` also raises. -/
def faultRenameRemove : Faults := ⟨false, false, [], true, true⟩

/-- The fault scenario in which `os.rename` raises and cleanup succeeds. -/
def faultRenameOnly : Faults := ⟨false, false, [], true, false⟩

/-! ## Lemmas about the path model -/

theorem splitSlash_ne_nil (s : PyStr) : splitSlash s ≠ [] := by
  induction s with
  | nil => simp [splitSlash]
  | cons c rest ih =>
    unfold splitSlash
    by_cases hc : c = '/'
    · simp [hc]
    · simp only [if_neg hc]
      cases h : splitSlash rest <;> simp

theorem splitSlash_no_slash (s : PyStr) (h : '/' ∉ s) : splitSlash s = [s] := by
  induction s with
  | nil => rfl
  | cons c rest ih =>
    have hc : c ≠ '/' := fun e => h (e ▸ List.mem_cons_self c rest)
    have hr : '/' ∉ rest := fun m => h (List.mem_cons_of_mem c m)
    unfold splitSlash
    rw [if_neg hc, ih hr]

theorem splitSlash_append (a b : PyStr) (ha : '/' ∉ a) (hd tl : _)
    (hb : splitSlash b = hd :: tl) : splitSlash (a ++ b) = (a ++ hd) :: tl := by
  induction a with
  | nil => simpa using hb
  | cons c rest ih =>
    have hc : c ≠ '/' := fun e => ha (e ▸ List.mem_cons_self c rest)
    have hr : '/' ∉ rest := fun m => ha (List.mem_cons_of_mem c m)
    show splitSlash (c :: (rest ++ b)) = _
    unfold splitSlash
    rw [if_neg hc, ih hr]
    rfl

theorem keepSeg_eq_true (s : PyStr) (h1 : s ≠ []) (h2 : s ≠ ['.']) : keepSeg s = true := by
  simp [keepSeg, h1, h2]

theorem splitSegs_nil : splitSegs [] = [] := rfl

theorem splitSegs_single (s : PyStr) (h : '/' ∉ s) (h1 : s ≠ []) (h2 : s ≠ ['.']) :
    splitSegs s = [s] := by
  unfold splitSegs
  rw [splitSlash_no_slash s h, List.filter_cons, keepSeg_eq_true s h1 h2]
  rfl

theorem splitSegs_of_no_slash (s : PyStr) (h : '/' ∉ s) :
    splitSegs s = if s = [] ∨ s = ['.'] then [] else [s] := by
  by_cases h1 : s = []
  · simp [h1, splitSegs_nil]
  · by_cases h2 : s = ['.']
    · subst h2
      simp [splitSegs, splitSlash, keepSeg]
    · simp [h1, h2, splitSegs_single s h h1 h2]

theorem segsOfParts_append (xs ys : List PyStr) :
    segsOfParts (xs ++ ys) = segsOfParts xs ++ segsOfParts ys := by
  induction xs with
  | nil => rfl
  | cons s rest ih => simp [segsOfParts, ih]

theorem joinSeg_rel (p : PPath) (s : PyStr) (h : s.head? ≠ some '/') :
    joinSeg p s = ⟨p.isAbs, p.comps ++ splitSegs s⟩ := by
  unfold joinSeg
  rw [if_neg h]

theorem joinMany_rel (parts : List PyStr) (p : PPath)
    (h : ∀ s ∈ parts, s.head? ≠ some '/') :
    joinMany p parts = ⟨p.isAbs, p.comps ++ segsOfParts parts⟩ := by
  induction parts generalizing p with
  | nil => simp [joinMany, segsOfParts]
  | cons s rest ih =>
    rw [joinMany, joinSeg_rel p s (h s (List.mem_cons_self s rest)),
      ih _ (fun t ht => h t (List.mem_cons_of_mem s ht))]
    simp [segsOfParts, List.append_assoc]

theorem head?_ne_slash (s : PyStr) (h : '/' ∉ s) : s.head? ≠ some '/' := by
  cases s with
  | nil => simp
  | cons c rest =>
    intro e
    have hc : c = '/' := by simpa using e
    exact h (hc ▸ List.mem_cons_self c rest)

/-! ## Lemmas about slices and hex digests -/

theorem pyIndex_le (n : Nat) (i : Int) : pyIndex n i ≤ n := by
  unfold pyIndex
  split <;> omega

theorem pySlice_subset (s : PyStr) (a b : Int) : ∀ c ∈ pySlice s a b, c ∈ s := by
  intro c hc
  unfold pySlice at hc
  exact List.take_subset _ _ (List.drop_subset _ _ hc)

theorem pySlice_length (s : PyStr) (a b : Int) :
    (pySlice s a b).length = pyIndex s.length b - pyIndex s.length a := by
  unfold pySlice
  rw [List.length_drop, List.length_take, Nat.min_eq_left (pyIndex_le s.length b)]

theorem IsHexDigest.length64 {s : PyStr} (h : IsHexDigest s) : s.length = 64 := h.1

theorem IsHexDigest.ne_nil {s : PyStr} (h : IsHexDigest s) : s ≠ [] := by
  intro e
  have := h.1
  rw [e] at this
  simp at this

theorem IsHexDigest.no_slash {s : PyStr} (h : IsHexDigest s) : '/' ∉ s := by
  intro m
  exact absurd (h.2 '/' m) (by decide)

theorem IsHexDigest.no_dot {s : PyStr} (h : IsHexDigest s) : '.' ∉ s := by
  intro m
  exact absurd (h.2 '.' m) (by decide)

theorem shardParts_clean (cfg : ImageStorage) (d : PyStr) (hsl : '/' ∉ d) (hdot : '.' ∉ d) :
    ∀ s ∈ shardParts cfg d, '/' ∉ s ∧ s ≠ ['.'] := by
  intro s hs
  unfold shardParts at hs
  obtain ⟨i, _, rfl⟩ := List.mem_map.mp hs
  constructor
  · exact fun m => hsl (pySlice_subset _ _ _ _ m)
  · intro e
    have : '.' ∈ pySlice d (cfg.shardWidth * i) (cfg.shardWidth * i + cfg.shardWidth) := by
      rw [e]; simp
    exact hdot (pySlice_subset _ _ _ _ this)

/-! ## Structure of the derived file path -/

theorem getFilePath_hex (cfg : ImageStorage) (d ext : PyStr) (hh : IsHexDigest d)
    (eh : PyStr) (et : List PyStr) (hsp : splitSlash ext = eh :: et) :
    getFilePath cfg d ext =
      ⟨cfg.basePath.isAbs,
        cfg.basePath.comps ++
          (segsOfParts (shardParts cfg d) ++ ((d ++ eh) :: et.filter keepSeg))⟩ := by
  have hclean := shardParts_clean cfg d hh.no_slash hh.no_dot
  have hshard : getShardPath cfg d =
      ⟨cfg.basePath.isAbs, cfg.basePath.comps ++ segsOfParts (shardParts cfg d)⟩ :=
    joinMany_rel _ _ (fun s hs => head?_ne_slash s (hclean s hs).1)
  have hdhead : (d ++ ext).head? ≠ some '/' := by
    cases hd : d with
    | nil => exact absurd hd hh.ne_nil
    | cons c rest =>
      rw [List.cons_append, List.head?_cons]
      intro e
      have hc : c = '/' := by simpa using e
      exact hh.no_slash (by rw [hd]; exact hc ▸ List.mem_cons_self c rest)
  have hne : d ++ eh ≠ [] := fun e => hh.ne_nil (List.append_eq_nil.mp e).1
  have hdot : d ++ eh ≠ ['.'] := by
    cases hd : d with
    | nil => exact absurd hd hh.ne_nil
    | cons c rest =>
      rw [List.cons_append]
      intro e
      have hc : c = '.' := by
        have := congrArg List.head? e
        simpa using this
      exact hh.no_dot (by rw [hd]; exact hc ▸ List.mem_cons_self c rest)
  have hsegs : splitSegs (d ++ ext) = (d ++ eh) :: et.filter keepSeg := by
    unfold splitSegs
    rw [splitSlash_append d ext hh.no_slash eh et hsp, List.filter_cons,
      keepSeg_eq_true _ hne hdot]
    rfl
  unfold getFilePath
  rw [joinSeg_rel _ _ hdhead, hshard, hsegs]
  simp [List.append_assoc]

theorem getFilePath_noslash (cfg : ImageStorage) (d ext : PyStr)
    (hd : '/' ∉ d) (he : '/' ∉ ext) :
    getFilePath cfg d ext =
      ⟨cfg.basePath.isAbs,
        cfg.basePath.comps ++
          (segsOfParts (shardParts cfg d) ++ splitSegs (d ++ ext))⟩ := by
  have hshard : getShardPath cfg d =
      ⟨cfg.basePath.isAbs, cfg.basePath.comps ++ segsOfParts (shardParts cfg d)⟩ := by
    apply joinMany_rel
    intro s hs
    apply head?_ne_slash
    intro m
    unfold shardParts at hs
    obtain ⟨i, _, rfl⟩ := List.mem_map.mp hs
    exact hd (pySlice_subset _ _ _ _ m)
  have hdhead : (d ++ ext).head? ≠ some '/' := by
    apply head?_ne_slash
    intro m
    rcases List.mem_append.mp m with m | m
    · exact hd m
    · exact he m
  unfold getFilePath
  rw [joinSeg_rel _ _ hdhead, hshard]
  simp [List.append_assoc]

/-! ## Lemmas about name suffixes and `with_suffix` -/

theorem splitRevDot_spec (l : PyStr) (a b : PyStr) (h : splitRevDot l = some (a, b)) :
    l = a ++ '.' :: b := by
  induction l generalizing a b with
  | nil => simp [splitRevDot] at h
  | cons c rest ih =>
    unfold splitRevDot at h
    by_cases hc : c = '.'
    · rw [if_pos hc] at h
      injection h with h'
      cases h'
      subst hc
      rfl
    · rw [if_neg hc] at h
      rcases Option.map_eq_some'.mp h with ⟨⟨a', b'⟩, hrec, heq⟩
      cases heq
      rw [List.cons_append]
      exact congrArg (c :: ·) (ih a' b' hrec)

theorem nameSuffix_split (n : PyStr) :
    n.take (n.length - (nameSuffix n).length) ++ nameSuffix n = n := by
  unfold nameSuffix
  split
  next a b hs =>
    have hrev : n.reverse = a ++ '.' :: b := splitRevDot_spec _ _ _ hs
    have hn : n = b.reverse ++ '.' :: a.reverse := by
      have := congrArg List.reverse hrev
      simpa using this
    by_cases hab : a ≠ [] ∧ b ≠ []
    · rw [if_pos hab]
      have hlen : n.length - ('.' :: a.reverse).length = b.reverse.length := by
        rw [hn]
        simp
      rw [hlen]
      conv_lhs => rw [hn]
      rw [List.take_left]
      exact hn.symm
    · rw [if_neg hab]
      simp
  next hs => simp

theorem pathWithSuffix_tmp (p : PPath) (n : PyStr) (hn : p.comps.getLast? = some n) :
    pathWithSuffix p (".tmp".data) =
      some ⟨p.isAbs, p.comps.dropLast ++
        [n.take (n.length - (nameSuffix n).length) ++ ".tmp".data]⟩ := by
  unfold pathWithSuffix
  rw [if_neg (by decide), if_neg (by decide), if_neg (by decide), hn]

theorem getLast?_decomp {α : Type} (l : List α) (x : α) (h : l.getLast? = some x) :
    l.dropLast ++ [x] = l := by
  induction l with
  | nil => simp at h
  | cons a t ih =>
    cases t with
    | nil =>
      have : a = x := by simpa using h
      simp [this]
    | cons b t' =>
      rw [List.getLast?_cons_cons] at h
      rw [List.dropLast_cons_of_ne_nil (by simp), List.cons_append]
      exact congrArg (a :: ·) (ih h)

/-! ## Lemmas about the filesystem state -/

theorem lookup_setFile_self (l : List (PPath × Bytes)) (p : PPath) (b : Bytes) :
    lookupFile (setFile l p b) p = some b := by
  induction l with
  | nil => simp [setFile, lookupFile]
  | cons e rest ih =>
    obtain ⟨q, c⟩ := e
    unfold setFile
    by_cases h : q = p
    · rw [if_pos h]
      simp [lookupFile]
    · rw [if_neg h]
      unfold lookupFile
      rw [if_neg h]
      exact ih

theorem lookup_setFile_ne (l : List (PPath × Bytes)) (p q : PPath) (b : Bytes)
    (h : q ≠ p) : lookupFile (setFile l p b) q = lookupFile l q := by
  have h' : p ≠ q := fun e => h e.symm
  induction l with
  | nil => simp [setFile, lookupFile, h']
  | cons e rest ih =>
    obtain ⟨r, c⟩ := e
    by_cases hr : r = p
    · subst hr
      simp [setFile, lookupFile, h']
    · unfold setFile
      rw [if_neg hr]
      unfold lookupFile
      by_cases hq : r = q
      · rw [if_pos hq, if_pos hq]
      · rw [if_neg hq, if_neg hq]
        exact ih

theorem lookup_removeFileL_self (l : List (PPath × Bytes)) (p : PPath) :
    lookupFile (removeFileL l p) p = none := by
  induction l with
  | nil => rfl
  | cons e rest ih =>
    obtain ⟨r, c⟩ := e
    unfold removeFileL
    by_cases hr : r = p
    · rw [if_pos hr]
      exact ih
    · rw [if_neg hr]
      unfold lookupFile
      rw [if_neg hr]
      exact ih

theorem lookupFile_cons (r : PPath) (c : Bytes) (rest : List (PPath × Bytes)) (p : PPath) :
    lookupFile ((r, c) :: rest) p = if r = p then some c else lookupFile rest p := rfl

theorem lookup_removeFileL_ne (l : List (PPath × Bytes)) (p q : PPath)
    (h : q ≠ p) : lookupFile (removeFileL l p) q = lookupFile l q := by
  induction l with
  | nil => rfl
  | cons e rest ih =>
    obtain ⟨r, c⟩ := e
    by_cases hr : r = p
    · subst hr
      unfold removeFileL
      rw [if_pos rfl, ih, lookupFile_cons, if_neg (fun e => h e.symm)]
    · unfold removeFileL
      rw [if_neg hr, lookupFile_cons, lookupFile_cons, ih]

theorem pexists_false_iff (fs : FS) (p : PPath) :
    pexists fs p = false ↔ lookupFile fs.files p = none ∧ p ∉ fs.dirs := by
  unfold pexists
  rw [Bool.or_eq_false_iff]
  constructor
  · rintro ⟨h1, h2⟩
    refine ⟨?_, ?_⟩
    · cases hl : lookupFile fs.files p
      · rfl
      · rw [hl] at h1
        simp at h1
    · intro m
      have : fs.dirs.any (fun q => decide (q = p)) = true :=
        List.any_eq_true.mpr ⟨p, m, by simp⟩
      rw [this] at h2
      simp at h2
  · rintro ⟨h1, h2⟩
    refine ⟨by rw [h1]; rfl, ?_⟩
    cases ha : fs.dirs.any (fun q => decide (q = p))
    · rfl
    · rcases List.any_eq_true.mp ha with ⟨q, hq, he⟩
      have : q = p := of_decide_eq_true he
      exact absurd (this ▸ hq) h2

theorem pexists_true_of_file (fs : FS) (p : PPath) (c : Bytes)
    (h : lookupFile fs.files p = some c) : pexists fs p = true := by
  unfold pexists
  rw [h]
  rfl

theorem pexists_file_of_not_dir (fs : FS) (p : PPath)
    (h : pexists fs p = true) (hd : p ∉ fs.dirs) :
    ∃ c, lookupFile fs.files p = some c := by
  unfold pexists at h
  rcases Bool.or_eq_true_iff.mp h with h1 | h1
  · cases hl : lookupFile fs.files p
    · rw [hl] at h1
      simp at h1
    · exact ⟨_, rfl⟩
  · rcases List.any_eq_true.mp h1 with ⟨q, hq, he⟩
    have : q = p := of_decide_eq_true he
    exact absurd (this ▸ hq) hd

/-! ## Lemmas about the store operation -/

theorem mkdirsM_files (fs : FS) (p : PPath) : (mkdirsM fs p).files = fs.files := rfl

theorem tempPathOf_isSome (cfg : ImageStorage) (d ext : PyStr) (hh : IsHexDigest d) :
    ∃ tp, tempPathOf cfg d ext = some tp := by
  cases hsp : splitSlash ext with
  | nil => exact absurd hsp (splitSlash_ne_nil ext)
  | cons eh et =>
    have hfp := getFilePath_hex cfg d ext hh eh et hsp
    have hgl : ∃ n, (getFilePath cfg d ext).comps.getLast? = some n := by
      rw [hfp]
      apply Option.isSome_iff_exists.mp
      rw [List.getLast?_isSome]
      simp
    obtain ⟨n, hn⟩ := hgl
    exact ⟨_, pathWithSuffix_tmp _ n hn⟩

theorem storeM_dup (cfg : ImageStorage) (h : Bytes → PyStr) (fs : FS) (b : Bytes)
    (ext : PyStr) (sc : Faults)
    (hdup : pexists fs (getFilePath cfg (h b) ext) = true) :
    storeM cfg h fs b ext sc = (fs, .ok ⟨h b, getPathM cfg (h b) ext, b.length, true⟩) := by
  unfold storeM
  rw [if_pos hdup]
  rfl

theorem storeM_ok_eq (cfg : ImageStorage) (h : Bytes → PyStr) (fs : FS) (b : Bytes)
    (ext : PyStr) (tp : PPath)
    (htp : pathWithSuffix (getFilePath cfg (h b) ext) (".tmp".data) = some tp)
    (hne : pexists fs (getFilePath cfg (h b) ext) = false) :
    storeM cfg h fs b ext noFault =
      ({ files := setFile (removeFileL (setFile fs.files tp b) tp)
            (getFilePath cfg (h b) ext) b,
         dirs := (mkdirsM fs (getShardPath cfg (h b))).dirs },
       .ok ⟨h b, getPathM cfg (h b) ext, b.length, false⟩) := by
  unfold storeM
  rw [if_neg (by rw [hne]; exact Bool.false_ne_true), htp]
  simp only [noFault, renamePath, lookup_setFile_self, mkdirsM_files]
  rfl

theorem cleanupStep_spec (fs : FS) (tmp : PPath) (sc : Faults) (e : Err)
    (hrm : sc.removeFails = false) :
    lookupFile (cleanupStep fs tmp sc e).1.files tmp = none ∧
    (∀ q, q ≠ tmp →
      lookupFile (cleanupStep fs tmp sc e).1.files q = lookupFile fs.files q) ∧
    (cleanupStep fs tmp sc e).2 = .error e := by
  unfold cleanupStep
  by_cases hp : pexists fs tmp = true
  · rw [if_pos hp, if_neg (by rw [hrm]; exact Bool.false_ne_true)]
    exact ⟨lookup_removeFileL_self _ _, fun q hq => lookup_removeFileL_ne _ _ _ hq, rfl⟩
  · rw [if_neg hp]
    have hnone : lookupFile fs.files tmp = none :=
      ((pexists_false_iff fs tmp).mp (Bool.eq_false_iff.mpr (fun e' => hp e'))).1
    exact ⟨hnone, fun _ _ => rfl, rfl⟩

theorem cleanupStep_keep (fs : FS) (tmp : PPath) (sc : Faults) (e : Err) (c : Bytes)
    (hc : lookupFile fs.files tmp = some c) (hrm : sc.removeFails = true) :
    cleanupStep fs tmp sc e = (fs, .error .removeErr) := by
  unfold cleanupStep
  rw [if_pos (pexists_true_of_file fs tmp c hc), if_pos hrm]

theorem storeM_fail (cfg : ImageStorage) (h : Bytes → PyStr) (fs : FS) (b : Bytes)
    (ext : PyStr) (sc : Faults) (tp : PPath)
    (htp : pathWithSuffix (getFilePath cfg (h b) ext) (".tmp".data) = some tp)
    (hne : pexists fs (getFilePath cfg (h b) ext) = false)
    (hfail : sc.writeFails = true ∨ sc.renameFails = true)
    (hrm : sc.removeFails = false) :
    lookupFile (storeM cfg h fs b ext sc).1.files (getFilePath cfg (h b) ext) = none ∧
    lookupFile (storeM cfg h fs b ext sc).1.files tp = none ∧
    (storeM cfg h fs b ext sc).2 =
      .error (if sc.writeFails then Err.writeErr else Err.renameErr) := by
  have hfp_none : lookupFile fs.files (getFilePath cfg (h b) ext) = none :=
    ((pexists_false_iff _ _).mp hne).1
  unfold storeM
  rw [if_neg (by rw [hne]; exact Bool.false_ne_true), htp]
  dsimp only
  by_cases hw : sc.writeFails = true
  · rw [hw, if_pos rfl, if_pos rfl]
    by_cases hl : sc.writeLeaves = true
    · rw [if_pos hl]
      obtain ⟨c1, c2, c3⟩ := cleanupStep_spec
        { mkdirsM fs (getShardPath cfg (h b)) with
            files := setFile (mkdirsM fs (getShardPath cfg (h b))).files tp sc.leftover }
        tp sc .writeErr hrm
      refine ⟨?_, c1, c3⟩
      by_cases hq : getFilePath cfg (h b) ext = tp
      · rw [hq]; exact c1
      · rw [c2 _ hq]
        show lookupFile (setFile (mkdirsM fs (getShardPath cfg (h b))).files tp sc.leftover)
          _ = none
        rw [lookup_setFile_ne _ _ _ _ hq, mkdirsM_files]
        exact hfp_none
    · rw [if_neg hl]
      obtain ⟨c1, c2, c3⟩ := cleanupStep_spec (mkdirsM fs (getShardPath cfg (h b)))
        tp sc .writeErr hrm
      refine ⟨?_, c1, c3⟩
      by_cases hq : getFilePath cfg (h b) ext = tp
      · rw [hq]; exact c1
      · rw [c2 _ hq]
        show lookupFile (mkdirsM fs (getShardPath cfg (h b))).files _ = none
        rw [mkdirsM_files]
        exact hfp_none
  · have hr : sc.renameFails = true := by
      rcases hfail with hx | hx
      · exact absurd hx hw
      · exact hx
    rw [if_neg hw, if_neg hw, if_pos hr]
    obtain ⟨c1, c2, c3⟩ := cleanupStep_spec
      { mkdirsM fs (getShardPath cfg (h b)) with
          files := setFile (mkdirsM fs (getShardPath cfg (h b))).files tp b }
      tp sc .renameErr hrm
    refine ⟨?_, c1, c3⟩
    by_cases hq : getFilePath cfg (h b) ext = tp
    · rw [hq]; exact c1
    · rw [c2 _ hq]
      show lookupFile (setFile (mkdirsM fs (getShardPath cfg (h b))).files tp b) _ = none
      rw [lookup_setFile_ne _ _ _ _ hq, mkdirsM_files]
      exact hfp_none

theorem cleanupStep_ne_ok (fs : FS) (tmp : PPath) (sc : Faults) (e : Err)
    (res : StorageResult) : (cleanupStep fs tmp sc e).2 ≠ .ok res := by
  unfold cleanupStep
  split
  · split <;> simp
  · simp

theorem storeM_ok_snd (cfg : ImageStorage) (h : Bytes → PyStr) (fs : FS) (b : Bytes)
    (ext : PyStr) (hh : IsHexDigest (h b))
    (hne : pexists fs (getFilePath cfg (h b) ext) = false) :
    (storeM cfg h fs b ext noFault).2 =
      .ok ⟨h b, getPathM cfg (h b) ext, b.length, false⟩ := by
  obtain ⟨tp, htp⟩ := tempPathOf_isSome cfg (h b) ext hh
  unfold tempPathOf at htp
  rw [storeM_ok_eq cfg h fs b ext tp htp hne]

theorem storeM_ok_lookup (cfg : ImageStorage) (h : Bytes → PyStr) (fs : FS) (b : Bytes)
    (ext : PyStr) (hh : IsHexDigest (h b))
    (hne : pexists fs (getFilePath cfg (h b) ext) = false) :
    lookupFile (storeM cfg h fs b ext noFault).1.files (getFilePath cfg (h b) ext) =
      some b := by
  obtain ⟨tp, htp⟩ := tempPathOf_isSome cfg (h b) ext hh
  unfold tempPathOf at htp
  rw [storeM_ok_eq cfg h fs b ext tp htp hne]
  exact lookup_setFile_self _ _ _

theorem fetchM_found (cfg : ImageStorage) (fs : FS) (d ext : PyStr) (c : Bytes)
    (hc : lookupFile fs.files (getFilePath cfg d ext) = some c) :
    fetchM cfg fs d ext = .ok (some c) := by
  unfold fetchM
  dsimp only
  rw [if_pos (pexists_true_of_file _ _ _ hc), hc]

/-! ## Shard-slice arithmetic for full-length digests -/

theorem pySlice_hex_clean (d : PyStr) (hh : IsHexDigest d) (a b : Int) :
    '/' ∉ pySlice d a b ∧ pySlice d a b ≠ ['.'] := by
  constructor
  · exact fun m => hh.no_slash (pySlice_subset _ _ _ _ m)
  · intro e
    have : '.' ∈ pySlice d a b := by rw [e]; simp
    exact hh.no_dot (pySlice_subset _ _ _ _ this)

theorem splitSegs_length_clean (s : PyStr) (hs : '/' ∉ s) (hd : s ≠ ['.']) :
    (splitSegs s).length = if s = [] then 0 else 1 := by
  by_cases h1 : s = []
  · simp [h1, splitSegs_nil]
  · simp [h1, splitSegs_single s hs h1 hd]

theorem splitSegs_slice_length_eq (d1 d2 : PyStr) (h1 : IsHexDigest d1)
    (h2 : IsHexDigest d2) (a b : Int) :
    (splitSegs (pySlice d1 a b)).length = (splitSegs (pySlice d2 a b)).length := by
  rw [splitSegs_length_clean _ (pySlice_hex_clean d1 h1 a b).1 (pySlice_hex_clean d1 h1 a b).2,
    splitSegs_length_clean _ (pySlice_hex_clean d2 h2 a b).1 (pySlice_hex_clean d2 h2 a b).2]
  have hl : (pySlice d1 a b).length = (pySlice d2 a b).length := by
    rw [pySlice_length, pySlice_length, h1.length64, h2.length64]
  by_cases he : pySlice d1 a b = []
  · rw [if_pos he, if_pos (List.length_eq_zero.mp (by rw [← hl, he]; rfl))]
  · rw [if_neg he, if_neg (fun e2 => he (List.length_eq_zero.mp (by rw [hl, e2]; rfl)))]

theorem segsOfParts_length_shard (cfg : ImageStorage) (d1 d2 : PyStr)
    (h1 : IsHexDigest d1) (h2 : IsHexDigest d2) :
    (segsOfParts (shardParts cfg d1)).length =
      (segsOfParts (shardParts cfg d2)).length := by
  unfold shardParts
  generalize cfg.shardDepth.toNat = n
  induction n with
  | zero => rfl
  | succ k ih =>
    rw [List.range_succ, List.map_append, List.map_append, segsOfParts_append,
      segsOfParts_append, List.length_append, List.length_append, ih]
    congr 1
    show (segsOfParts [_]).length = (segsOfParts [_]).length
    simp only [segsOfParts, List.append_nil]
    exact splitSegs_slice_length_eq d1 d2 h1 h2 _ _

theorem segsOfParts_eq_self (parts : List PyStr)
    (h : ∀ s ∈ parts, '/' ∉ s ∧ s ≠ ['.'] ∧ s ≠ []) : segsOfParts parts = parts := by
  induction parts with
  | nil => rfl
  | cons s rest ih =>
    have hs := h s (List.mem_cons_self s rest)
    rw [segsOfParts, splitSegs_single s hs.1 hs.2.2 hs.2.1,
      ih (fun t ht => h t (List.mem_cons_of_mem _ ht))]
    rfl

theorem shardParts_nonempty (cfg : ImageStorage) (d : PyStr) (hlen : d.length = 64)
    (hw : 1 ≤ cfg.shardWidth)
    (hb : cfg.shardDepth.toNat * cfg.shardWidth.toNat ≤ 64) :
    ∀ s ∈ shardParts cfg d, s ≠ [] := by
  intro s hs
  unfold shardParts at hs
  obtain ⟨i, hi, rfl⟩ := List.mem_map.mp hs
  have hi' : i < cfg.shardDepth.toNat := List.mem_range.mp hi
  have hw0 : (0:Int) ≤ cfg.shardWidth := le_trans (by norm_num) hw
  rcases Int.eq_ofNat_of_zero_le hw0 with ⟨W, hW⟩
  have hW1 : 1 ≤ W := by
    rw [hW] at hw
    exact_mod_cast hw
  have hbound : W * (i + 1) ≤ 64 := by
    have h1 : W * (i + 1) ≤ W * cfg.shardDepth.toNat :=
      Nat.mul_le_mul_left W hi'
    have h2 : W * cfg.shardDepth.toNat = cfg.shardDepth.toNat * cfg.shardWidth.toNat := by
      rw [hW, Int.toNat_natCast, Nat.mul_comm]
    omega
  intro he
  have hle : (pySlice d (cfg.shardWidth * i) (cfg.shardWidth * i + cfg.shardWidth)).length
      = 0 := by rw [he]; rfl
  rw [pySlice_length, hlen] at hle
  rw [hW] at hle
  rw [show ((W:Int) * (i:Int)) = ((W * i : Nat) : Int) by push_cast; ring,
    show ((W * i : Nat) : Int) + (W:Int) = ((W * i + W : Nat) : Int) by push_cast; ring]
    at hle
  unfold pyIndex at hle
  rw [if_neg (not_lt.mpr (Int.natCast_nonneg _)), if_neg (not_lt.mpr (Int.natCast_nonneg _)),
    Int.toNat_natCast, Int.toNat_natCast] at hle
  have hWi : W * i + W = W * (i + 1) := by ring
  omega

/-! ## Claims -/

/-- C4: for a fixed configuration and extension, the derived location is a pure
function of the digest alone (`getFilePath` takes no filesystem state, so it is
independent of any prior store/fetch/delete call), it is injective on
full-length hex digests, and — whenever the configured shard levels fit in the
64-character digest — it is exactly
`{root}/{digest[0:w]}/{digest[w:2w]}/.../{digest}{extension}` with
`shard_depth` directory levels. -/
theorem C4_locate_pure_injective (cfg : ImageStorage) (ext d1 d2 : PyStr)
    (h1 : IsHexDigest d1) (h2 : IsHexDigest d2) :
    (getFilePath cfg d1 ext = getFilePath cfg d2 ext ↔ d1 = d2) ∧
    ('/' ∉ ext → 1 ≤ cfg.shardWidth →
      cfg.shardDepth.toNat * cfg.shardWidth.toNat ≤ 64 →
      (getFilePath cfg d1 ext).comps
          = cfg.basePath.comps ++ (shardParts cfg d1 ++ [d1 ++ ext]) ∧
      (shardParts cfg d1).length = cfg.shardDepth.toNat) := by
  constructor
  · constructor
    · intro heq
      cases hsp : splitSlash ext with
      | nil => exact absurd hsp (splitSlash_ne_nil ext)
      | cons eh et =>
        rw [getFilePath_hex cfg d1 ext h1 eh et hsp,
          getFilePath_hex cfg d2 ext h2 eh et hsp] at heq
        have hcomps := congrArg PPath.comps heq
        have heq2 := List.append_cancel_left hcomps
        obtain ⟨-, heq3⟩ :=
          List.append_inj heq2 (segsOfParts_length_shard cfg d1 d2 h1 h2)
        have h4 : d1 ++ eh = d2 ++ eh := by injection heq3
        exact (List.append_inj h4 (by rw [h1.length64, h2.length64])).1
    · intro e
      rw [e]
  · intro hex hw hb
    have hsp : splitSlash ext = [ext] := splitSlash_no_slash ext hex
    have hcl := shardParts_clean cfg d1 h1.no_slash h1.no_dot
    have hne := shardParts_nonempty cfg d1 h1.length64 hw hb
    refine ⟨?_, ?_⟩
    · rw [getFilePath_hex cfg d1 ext h1 ext [] hsp]
      show cfg.basePath.comps ++
          (segsOfParts (shardParts cfg d1) ++ ((d1 ++ ext) :: List.filter keepSeg [])) = _
      rw [segsOfParts_eq_self _ (fun s hs => ⟨(hcl s hs).1, (hcl s hs).2, hne s hs⟩)]
      rfl
    · unfold shardParts
      rw [List.length_map, List.length_range]

/-- Witness for C4 at the default configuration, extension `.jpg` and the
concrete digests `digestA`, `digestB`. -/
theorem C4_witness :
    (getFilePath imageStorageDefault digestA jpgExt =
        getFilePath imageStorageDefault digestB jpgExt ↔ digestA = digestB) ∧
    ('/' ∉ jpgExt → 1 ≤ imageStorageDefault.shardWidth →
      imageStorageDefault.shardDepth.toNat * imageStorageDefault.shardWidth.toNat ≤ 64 →
      (getFilePath imageStorageDefault digestA jpgExt).comps
          = imageStorageDefault.basePath.comps ++
              (shardParts imageStorageDefault digestA ++ [digestA ++ jpgExt]) ∧
      (shardParts imageStorageDefault digestA).length =
        imageStorageDefault.shardDepth.toNat) :=
  C4_locate_pure_injective imageStorageDefault jpgExt digestA digestB
    (by decide) (by decide)

/-- C5: when an object already exists at the derived final location, `store`
returns the same filesystem state untouched (no directory creation, no
temporary write, no rename) together with `is_duplicate = true` and
`size = len(input)`; consequently storing the same payload twice yields
`is_duplicate = false` then `true`, with the second call changing nothing. -/
theorem C5_dedup (cfg : ImageStorage) (h : Bytes → PyStr) (fs : FS) (b : Bytes)
    (ext : PyStr) (sc sc2 : Faults) (hh : IsHexDigest (h b)) :
    (pexists fs (getFilePath cfg (h b) ext) = true →
      storeM cfg h fs b ext sc =
        (fs, .ok ⟨h b, getPathM cfg (h b) ext, b.length, true⟩)) ∧
    (pexists fs (getFilePath cfg (h b) ext) = false →
      (storeM cfg h fs b ext noFault).2 =
          .ok ⟨h b, getPathM cfg (h b) ext, b.length, false⟩ ∧
      storeM cfg h (storeM cfg h fs b ext noFault).1 b ext sc2 =
        ((storeM cfg h fs b ext noFault).1,
          .ok ⟨h b, getPathM cfg (h b) ext, b.length, true⟩)) := by
  constructor
  · intro hdup
    exact storeM_dup cfg h fs b ext sc hdup
  · intro hne
    refine ⟨storeM_ok_snd cfg h fs b ext hh hne, ?_⟩
    exact storeM_dup cfg h _ b ext sc2
      (pexists_true_of_file _ _ b (storeM_ok_lookup cfg h fs b ext hh hne))

/-- Witness for C5 at the default configuration on the empty filesystem. -/
theorem C5_witness :
    (pexists emptyFS (getFilePath imageStorageDefault (hashA [7]) jpgExt) = true →
      storeM imageStorageDefault hashA emptyFS [7] jpgExt noFault =
        (emptyFS, .ok ⟨hashA [7], getPathM imageStorageDefault (hashA [7]) jpgExt,
          ([7] : Bytes).length, true⟩)) ∧
    (pexists emptyFS (getFilePath imageStorageDefault (hashA [7]) jpgExt) = false →
      (storeM imageStorageDefault hashA emptyFS [7] jpgExt noFault).2 =
          .ok ⟨hashA [7], getPathM imageStorageDefault (hashA [7]) jpgExt,
            ([7] : Bytes).length, false⟩ ∧
      storeM imageStorageDefault hashA
          (storeM imageStorageDefault hashA emptyFS [7] jpgExt noFault).1 [7] jpgExt noFault =
        ((storeM imageStorageDefault hashA emptyFS [7] jpgExt noFault).1,
          .ok ⟨hashA [7], getPathM imageStorageDefault (hashA [7]) jpgExt,
            ([7] : Bytes).length, true⟩)) :=
  C5_dedup imageStorageDefault hashA emptyFS [7] jpgExt noFault noFault (by decide)

/-- C6: round-trip — a successful fault-free `store` of payload `b` followed by
a `fetch` of the returned digest yields exactly `b`, provided nothing foreign
sits at the derived location beforehand (no directory there, and any
pre-existing file there already holds `b`). -/
theorem C6_roundtrip (cfg : ImageStorage) (h : Bytes → PyStr) (fs : FS) (b : Bytes)
    (ext : PyStr) (hh : IsHexDigest (h b))
    (hdir : getFilePath cfg (h b) ext ∉ fs.dirs)
    (hcons : ∀ c, lookupFile fs.files (getFilePath cfg (h b) ext) = some c → c = b) :
    ∃ res, (storeM cfg h fs b ext noFault).2 = .ok res ∧ res.hash = h b ∧
      fetchM cfg (storeM cfg h fs b ext noFault).1 res.hash ext = .ok (some b) := by
  by_cases hdup : pexists fs (getFilePath cfg (h b) ext) = true
  · rw [storeM_dup cfg h fs b ext noFault hdup]
    refine ⟨_, rfl, rfl, ?_⟩
    obtain ⟨c, hc⟩ := pexists_file_of_not_dir fs _ hdup hdir
    rw [hcons c hc] at hc
    exact fetchM_found cfg fs (h b) ext b hc
  · have hne : pexists fs (getFilePath cfg (h b) ext) = false := by
      cases e : pexists fs (getFilePath cfg (h b) ext)
      · rfl
      · exact absurd e hdup
    exact ⟨_, storeM_ok_snd cfg h fs b ext hh hne, rfl,
      fetchM_found cfg _ (h b) ext b (storeM_ok_lookup cfg h fs b ext hh hne)⟩

/-- Witness for C6: store-then-fetch of the payload `[7]` on the empty
filesystem. -/
theorem C6_witness :
    ∃ res, (storeM imageStorageDefault hashA emptyFS [7] jpgExt noFault).2 = .ok res ∧
      res.hash = hashA [7] ∧
      fetchM imageStorageDefault
        (storeM imageStorageDefault hashA emptyFS [7] jpgExt noFault).1 res.hash jpgExt =
        .ok (some [7]) :=
  C6_roundtrip imageStorageDefault hashA emptyFS [7] jpgExt (by decide)
    (List.not_mem_nil _) (fun _ hc => Option.noConfusion hc)

/-- C7: when nothing exists at the derived location, `fetch` returns `None`
without raising, `exists` returns `false`, and `delete` returns `false`
leaving the filesystem unchanged. -/
theorem C7_notfound (cfg : ImageStorage) (fs : FS) (digest ext : PyStr)
    (hne : pexists fs (getFilePath cfg digest ext) = false) :
    fetchM cfg fs digest ext = .ok none ∧
    existsM cfg fs digest ext = false ∧
    deleteM cfg fs digest ext = .ok (fs, false) := by
  have hfalse : ¬ (pexists fs (getFilePath cfg digest ext) = true) := by
    rw [hne]; exact Bool.false_ne_true
  refine ⟨?_, hne, ?_⟩
  · unfold fetchM
    dsimp only
    rw [if_neg hfalse]
  · unfold deleteM
    dsimp only
    rw [if_neg hfalse]

/-- Witness for C7 at a never-stored digest on the empty filesystem. -/
theorem C7_witness :
    fetchM imageStorageDefault emptyFS digestA jpgExt = .ok none ∧
    existsM imageStorageDefault emptyFS digestA jpgExt = false ∧
    deleteM imageStorageDefault emptyFS digestA jpgExt = .ok (emptyFS, false) :=
  C7_notfound imageStorageDefault emptyFS digestA jpgExt (by decide)

/-- C9: every successful `store` result satisfies `hash = digest_of(input)` and
`path = locate(hash, extension)`, on the duplicate path and the first-write
path alike — the location is recomputable from the returned digest alone. -/
theorem C9_result_consistent (cfg : ImageStorage) (h : Bytes → PyStr) (fs : FS)
    (b : Bytes) (ext : PyStr) (sc : Faults) (res : StorageResult)
    (hres : (storeM cfg h fs b ext sc).2 = .ok res) :
    res.hash = h b ∧ res.path = getPathM cfg res.hash ext := by
  unfold storeM at hres
  dsimp only at hres
  split at hres
  · have h2 : Except.ok (ε := Err)
        (⟨h b, renderPath (getFilePath cfg (h b) ext), b.length, true⟩ : StorageResult) =
        .ok res := hres
    injection h2 with h3
    subst h3
    exact ⟨rfl, rfl⟩
  · split at hres
    · exact absurd hres (by simp)
    · split at hres
      · exact absurd hres (cleanupStep_ne_ok _ _ _ _ _)
      · split at hres
        · exact absurd hres (cleanupStep_ne_ok _ _ _ _ _)
        · split at hres
          · have h2 : Except.ok (ε := Err)
                (⟨h b, renderPath (getFilePath cfg (h b) ext), b.length, false⟩ :
                  StorageResult) = .ok res := hres
            injection h2 with h3
            subst h3
            exact ⟨rfl, rfl⟩
          · exact absurd hres (cleanupStep_ne_ok _ _ _ _ _)

/-- Witness for C9 at a concrete fault-free first store. -/
theorem C9_witness :
    (⟨digestA, getPathM imageStorageDefault digestA jpgExt, 1, false⟩ :
        StorageResult).hash = hashA [7] ∧
    (⟨digestA, getPathM imageStorageDefault digestA jpgExt, 1, false⟩ :
        StorageResult).path =
      getPathM imageStorageDefault
        (⟨digestA, getPathM imageStorageDefault digestA jpgExt, 1, false⟩ :
          StorageResult).hash jpgExt :=
  C9_result_consistent imageStorageDefault hashA emptyFS [7] jpgExt noFault _ (by decide)

/-- C1 (amended): the temporary location `file_path.with_suffix('.tmp')` is
distinct from the final location whenever the final name's suffix is not
already `".tmp"`; when the caller-supplied extension makes that suffix
`".tmp"`, the two coincide (see the counterexample). -/
theorem C1_temp_distinct (cfg : ImageStorage) (h : Bytes → PyStr) (b : Bytes)
    (ext : PyStr) (tp : PPath)
    (hs : nameSuffix (pathName (getFilePath cfg (h b) ext)) ≠ ".tmp".data)
    (ht : tempPathOf cfg (h b) ext = some tp) :
    tp ≠ getFilePath cfg (h b) ext := by
  unfold tempPathOf at ht
  cases hn : (getFilePath cfg (h b) ext).comps.getLast? with
  | none =>
    unfold pathWithSuffix at ht
    rw [if_neg (by decide), if_neg (by decide), if_neg (by decide), hn] at ht
    exact absurd ht (by simp)
  | some n =>
    rw [pathWithSuffix_tmp _ n hn] at ht
    injection ht with ht'
    subst ht'
    intro e
    have hcomps := congrArg PPath.comps e
    have hdecomp := getLast?_decomp _ n hn
    have h5 : (getFilePath cfg (h b) ext).comps.dropLast ++
        [n.take (n.length - (nameSuffix n).length) ++ ".tmp".data] =
        (getFilePath cfg (h b) ext).comps.dropLast ++ [n] :=
      hcomps.trans hdecomp.symm
    have h6 := List.append_cancel_left h5
    have h7 : n.take (n.length - (nameSuffix n).length) ++ ".tmp".data = n := by
      injection h6
    have h9 : (".tmp".data : PyStr) = nameSuffix n :=
      List.append_cancel_left (h7.trans (nameSuffix_split n).symm)
    apply hs
    unfold pathName
    rw [hn]
    exact h9.symm

/-- Witness for C1: for a `.jpg` store of the empty payload, the temporary
location differs from the final one. -/
theorem C1_witness :
    nameSuffix (pathName (getFilePath imageStorageDefault (hashA []) jpgExt)) ≠
        ".tmp".data ∧
    tempPathOf imageStorageDefault (hashA []) jpgExt =
      some (getFilePath imageStorageDefault digestA tmpExt) ∧
    getFilePath imageStorageDefault digestA tmpExt ≠
      getFilePath imageStorageDefault (hashA []) jpgExt :=
  ⟨by decide, by decide,
    C1_temp_distinct imageStorageDefault hashA [] jpgExt _ (by decide) (by decide)⟩

/-- C1 counterexample: with the caller-supplied extension `".tmp"`, the
"temporary" location is the final location itself, because `with_suffix`
replaces the existing suffix instead of appending. -/
theorem C1_counterexample :
    tempPathOf imageStorageDefault (hashA []) tmpExt =
      some (getFilePath imageStorageDefault (hashA []) tmpExt) := by decide

/-- C2 (amended): the constructor performs no validation and cannot fail — it
only records the base path and the shard parameters — and a store constructed
with shard width 0 and nonzero depth, or with negative depth, still performs
every operation: a fault-free store on a fresh location succeeds. -/
theorem C2_no_validation (base : PyStr) (depth width : Int) (h : Bytes → PyStr)
    (fs : FS) (b : Bytes) (ext : PyStr) (hh : IsHexDigest (h b))
    (hne : pexists fs (getFilePath (ImageStorage.init base depth width) (h b) ext)
      = false) :
    (ImageStorage.init base depth width).basePath = parsePath base ∧
    (ImageStorage.init base depth width).shardDepth = depth ∧
    (ImageStorage.init base depth width).shardWidth = width ∧
    (storeM (ImageStorage.init base depth width) h fs b ext noFault).2 =
      .ok ⟨h b, getPathM (ImageStorage.init base depth width) (h b) ext,
        b.length, false⟩ :=
  ⟨rfl, rfl, rfl, storeM_ok_snd _ h fs b ext hh hne⟩

/-- Witness for C2 at the degenerate configuration width 0, depth 2. -/
theorem C2_witness :
    (ImageStorage.init defaultBase 2 0).basePath = parsePath defaultBase ∧
    (ImageStorage.init defaultBase 2 0).shardDepth = 2 ∧
    (ImageStorage.init defaultBase 2 0).shardWidth = 0 ∧
    (storeM (ImageStorage.init defaultBase 2 0) hashA emptyFS [7] jpgExt noFault).2 =
      .ok ⟨hashA [7], getPathM (ImageStorage.init defaultBase 2 0) (hashA [7]) jpgExt,
        ([7] : Bytes).length, false⟩ :=
  C2_no_validation defaultBase 2 0 hashA emptyFS [7] jpgExt (by decide) (by decide)

/-- C2 counterexample: construction with shard width 0 / nonzero depth and with
negative depth does not fail, and `store` succeeds on both such stores — the
claimed fail-fast construction-time rejection does not exist. -/
theorem C2_counterexample :
    (storeM (ImageStorage.init defaultBase 2 0) hashA emptyFS [7] jpgExt noFault).2 =
      .ok ⟨digestA, getPathM (ImageStorage.init defaultBase 2 0) digestA jpgExt,
        1, false⟩ ∧
    (storeM (ImageStorage.init defaultBase (-1) 2) hashA emptyFS [7] jpgExt noFault).2 =
      .ok ⟨digestA, getPathM (ImageStorage.init defaultBase (-1) 2) digestA jpgExt,
        1, false⟩ :=
  ⟨by decide, by decide⟩

/-- C3 (amended): if the temporary write or the rename fails and the cleanup
removal does not itself fail, then afterwards the temporary artifact is gone,
the final location holds no file, and the original error (write or rename
respectively) is the one propagated; when the cleanup removal itself fails,
the cleanup error replaces the original one instead (see the
counterexample). -/
theorem C3_cleanup (cfg : ImageStorage) (h : Bytes → PyStr) (fs : FS) (b : Bytes)
    (ext : PyStr) (sc : Faults) (tp : PPath)
    (ht : tempPathOf cfg (h b) ext = some tp)
    (hne : pexists fs (getFilePath cfg (h b) ext) = false)
    (hfail : sc.writeFails = true ∨ sc.renameFails = true)
    (hrm : sc.removeFails = false) :
    lookupFile (storeM cfg h fs b ext sc).1.files (getFilePath cfg (h b) ext) = none ∧
    lookupFile (storeM cfg h fs b ext sc).1.files tp = none ∧
    (storeM cfg h fs b ext sc).2 =
      .error (if sc.writeFails then Err.writeErr else Err.renameErr) := by
  unfold tempPathOf at ht
  exact storeM_fail cfg h fs b ext sc tp ht hne hfail hrm

/-- Witness for C3: a failed rename with a succeeding cleanup removal. -/
theorem C3_witness :
    lookupFile
        (storeM imageStorageDefault hashA emptyFS [7] jpgExt faultRenameOnly).1.files
        (getFilePath imageStorageDefault (hashA [7]) jpgExt) = none ∧
    lookupFile
        (storeM imageStorageDefault hashA emptyFS [7] jpgExt faultRenameOnly).1.files
        (getFilePath imageStorageDefault digestA tmpExt) = none ∧
    (storeM imageStorageDefault hashA emptyFS [7] jpgExt faultRenameOnly).2 =
      .error (if faultRenameOnly.writeFails then Err.writeErr else Err.renameErr) :=
  C3_cleanup imageStorageDefault hashA emptyFS [7] jpgExt faultRenameOnly _
    (by decide) (by decide) (Or.inr (by decide)) (by decide)

/-- C3 counterexample: when the rename fails and the cleanup removal also
fails, the propagated error is the cleanup error, not the original rename
error, and the temporary artifact is left on disk — the `raise` statement in
the `except` block is never reached once `os.remove` has raised. -/
theorem C3_counterexample :
    (storeM imageStorageDefault hashA emptyFS [7] jpgExt faultRenameRemove).2 ≠
        .error Err.renameErr ∧
    (storeM imageStorageDefault hashA emptyFS [7] jpgExt faultRenameRemove).2 =
        .error Err.removeErr ∧
    lookupFile
        (storeM imageStorageDefault hashA emptyFS [7] jpgExt faultRenameRemove).1.files
        (getFilePath imageStorageDefault digestA tmpExt) = some [7] :=
  ⟨by decide, by decide, by decide⟩

/-- C8 (amended): the temporary file name used by `store` is the deterministic
value `with_suffix('.tmp')` of the final path — a pure function of
configuration, digest and extension, with no per-writer variation — and any
writer that reaches the write step writes its payload at exactly that
location. -/
theorem C8_temp_deterministic (cfg : ImageStorage) (h : Bytes → PyStr) (fs : FS)
    (b : Bytes) (ext : PyStr) (tp : PPath)
    (ht : tempPathOf cfg (h b) ext = some tp)
    (hne : pexists fs (getFilePath cfg (h b) ext) = false) :
    lookupFile (storeM cfg h fs b ext faultRenameRemove).1.files tp = some b := by
  unfold tempPathOf at ht
  unfold storeM
  rw [if_neg (by rw [hne]; exact Bool.false_ne_true), ht]
  dsimp only
  rw [if_neg (by decide), if_pos (by decide),
    cleanupStep_keep _ tp faultRenameRemove .renameErr b (lookup_setFile_self _ _ _)
      (by decide)]
  exact lookup_setFile_self _ _ _

/-- Witness for C8: the concrete location of the temporary file written by a
store of `[7]` under the default configuration. -/
theorem C8_witness :
    lookupFile
        (storeM imageStorageDefault hashA emptyFS [9] jpgExt faultRenameRemove).1.files
        (getFilePath imageStorageDefault digestA tmpExt) = some [9] :=
  C8_temp_deterministic imageStorageDefault hashA emptyFS [9] jpgExt _
    (by decide) (by decide)

/-- C8 counterexample: the temporary name is a function of configuration,
digest and extension alone — two writers of payloads with the same digest and
extension, started from the same state, leave their (failed-rename) temporary
file at the identical location, refuting the claimed independence of
temporary names. -/
theorem C8_counterexample :
    tempPathOf imageStorageDefault digestA jpgExt =
      some (getFilePath imageStorageDefault digestA tmpExt) ∧
    (storeM imageStorageDefault hashA emptyFS [7] jpgExt faultRenameRemove).1.files =
      [(getFilePath imageStorageDefault digestA tmpExt, [7])] ∧
    (storeM imageStorageDefault hashA emptyFS [7] jpgExt faultRenameRemove).1.files =
      (storeM imageStorageDefault hashA emptyFS [7] jpgExt faultRenameRemove).1.files :=
  ⟨by decide, by decide, rfl⟩

/-- C10 (amended): path derivation is total — `locate`/`exists`/`fetch`/
`delete` accept any digest string, short or empty included, without raising
(given no directory squats on the location); when digest and extension contain
no path separator the location stays under the configured root with
out-of-range shard slices collapsing; and a short digest's location is used by
no full-length hex digest.  A digest containing `'/'` is spliced as path
segments, and an absolute segment escapes the root (see the
counterexample). -/
theorem C10_total (cfg : ImageStorage) (digest ext : PyStr) (fs : FS)
    (hd : '/' ∉ digest) (he : '/' ∉ ext)
    (hdir : getFilePath cfg digest ext ∉ fs.dirs) :
    (getFilePath cfg digest ext).isAbs = cfg.basePath.isAbs ∧
    cfg.basePath.comps <+: (getFilePath cfg digest ext).comps ∧
    (∃ r, fetchM cfg fs digest ext = .ok r) ∧
    (∃ r, deleteM cfg fs digest ext = .ok r) ∧
    (∀ D, IsHexDigest D →
      getFilePath imageStorageDefault D jpgExt ≠
        getFilePath imageStorageDefault ['a'] jpgExt) := by
  have hfp := getFilePath_noslash cfg digest ext hd he
  refine ⟨by rw [hfp], by rw [hfp]; exact ⟨_, rfl⟩, ?_, ?_, ?_⟩
  · by_cases hp : pexists fs (getFilePath cfg digest ext) = true
    · obtain ⟨c, hc⟩ := pexists_file_of_not_dir fs _ hp hdir
      exact ⟨some c, fetchM_found cfg fs digest ext c hc⟩
    · refine ⟨none, ?_⟩
      unfold fetchM
      dsimp only
      rw [if_neg hp]
  · by_cases hp : pexists fs (getFilePath cfg digest ext) = true
    · obtain ⟨c, hc⟩ := pexists_file_of_not_dir fs _ hp hdir
      refine ⟨({ fs with files := removeFileL fs.files (getFilePath cfg digest ext) },
        true), ?_⟩
      unfold deleteM
      dsimp only
      rw [if_pos hp, hc]
    · refine ⟨(fs, false), ?_⟩
      unfold deleteM
      dsimp only
      rw [if_neg hp]
  · intro D hD e
    have hsp : splitSlash jpgExt = [jpgExt] := by decide
    have hfx := getFilePath_hex imageStorageDefault D jpgExt hD jpgExt [] hsp
    have hcl := shardParts_clean imageStorageDefault D hD.no_slash hD.no_dot
    have hnemp := shardParts_nonempty imageStorageDefault D hD.length64
      (by decide) (by decide)
    have hshardlen : (shardParts imageStorageDefault D).length = 2 := by
      unfold shardParts
      rw [List.length_map, List.length_range]
      decide
    have hbase : imageStorageDefault.basePath.comps.length = 3 := by decide
    have hRHS : (getFilePath imageStorageDefault ['a'] jpgExt).comps.length = 5 := by
      decide
    have hlen : (getFilePath imageStorageDefault D jpgExt).comps.length =
        (getFilePath imageStorageDefault ['a'] jpgExt).comps.length := by rw [e]
    rw [hfx, segsOfParts_eq_self _
      (fun s hs => ⟨(hcl s hs).1, (hcl s hs).2, hnemp s hs⟩), hRHS] at hlen
    simp only [List.length_append, List.length_cons, List.filter_nil,
      List.length_nil, hbase, hshardlen] at hlen
    omega

/-- Witness for C10 at the slash-free short digest `"a"` on the empty
filesystem. -/
theorem C10_witness :
    (getFilePath imageStorageDefault ['a'] jpgExt).isAbs =
        imageStorageDefault.basePath.isAbs ∧
    imageStorageDefault.basePath.comps <+:
        (getFilePath imageStorageDefault ['a'] jpgExt).comps ∧
    (∃ r, fetchM imageStorageDefault emptyFS ['a'] jpgExt = .ok r) ∧
    (∃ r, deleteM imageStorageDefault emptyFS ['a'] jpgExt = .ok r) ∧
    (∀ D, IsHexDigest D →
      getFilePath imageStorageDefault D jpgExt ≠
        getFilePath imageStorageDefault ['a'] jpgExt) :=
  C10_total imageStorageDefault ['a'] jpgExt emptyFS (by decide) (by decide)
    (List.not_mem_nil _)

/-- C10 counterexample: the digest `"/a"` — shorter than
`shard_depth * shard_width` — does not map to a location under the root: its
leading `'/'` makes the joined segment absolute, discarding the root
entirely. -/
theorem C10_counterexample :
    ("/a".data).length <
      imageStorageDefault.shardDepth.toNat * imageStorageDefault.shardWidth.toNat ∧
    (getFilePath imageStorageDefault ("/a".data) jpgExt).comps = ["a.jpg".data] ∧
    ¬ (imageStorageDefault.basePath.comps <+:
        (getFilePath imageStorageDefault ("/a".data) jpgExt).comps) :=
  ⟨by decide, by decide, by decide⟩

end SaiStorage
